import Mathlib

/-!
Shallow embedding of the call-session registry and event broadcaster of
`src/dashboard_backend.py` (the `ConnectionManager` class and the FastAPI
call-control endpoints `start_call`, `transfer_call`, `end_call`,
`get_calls`, `get_call`, plus `get_statistics`).

Modelling conventions:
- Python `float` timestamps, volumes and percentages are modelled as `Int`:
  the claims under study involve only ordering, addition and subtraction of
  these values, on which integers and floating-point reals agree; the two
  ratios computed by `get_statistics` are formed in `Rat`.
- Python `str` call identifiers produced by `str(uuid.uuid4())` are modelled
  as `Nat` drawn from a monotone counter in the state (`nextId`): the only
  property of `uuid4` the code relies on is freshness.
- The dictionary `call_data` is modelled as an association list
  `List (Nat × CallData)` (Python dicts preserve insertion order); the list
  `call_history` as `List CallData`.
- `datetime.now().timestamp()` is passed in explicitly as a `now : Int`
  argument to each operation that samples the clock.
- Delegated external actions (LiveKit dispatch / SIP transfer / room
  teardown) are opaque to this component; their outcome is passed in as an
  `Except String _` argument (`.error msg` models the raised exception with
  message `msg`, which the endpoint handlers catch and convert to HTTP 500).
- A Python method that returns normally yields `none` in its
  `Option DashError` component; an HTTP endpoint that raises
  `HTTPException` yields `Except.error` with the status code and detail.
- `broadcast` is modelled separately over an abstract observer set with a
  per-observer delivery outcome oracle; the mutators below record the
  events they would broadcast in a `List Event`.
-/

deriving instance DecidableEq for Except

namespace Dashboard

/-- Call status states (`CallStatus` in the source). -/
inductive CallStatus
  | idle
  | dialing
  | ringing
  | connected
  | talking
  | on_hold
  | transferring
  | ended
  | failed
  deriving DecidableEq, Repr

/-- Speaker identification (`SpeakerRole` in the source). -/
inductive SpeakerRole
  | agent
  | customer
  deriving DecidableEq, Repr

/-- Individual transcript message (`TranscriptMessage` dataclass). -/
structure TranscriptMessage where
  id : String
  speaker : SpeakerRole
  text : String
  timestamp : Int
  confidence : Int
  sentiment : String
  emotion : Option String := none
  deriving DecidableEq, Repr

/-- Real-time audio metrics (`AudioMetrics` dataclass). -/
structure AudioMetrics where
  timestamp : Int
  agent_volume : Int
  customer_volume : Int
  agent_speaking : Bool
  customer_speaking : Bool
  background_noise_level : Int
  deriving DecidableEq, Repr

/-- The shape of the `sentiment_scores` dict (the three keys the code uses). -/
structure SentimentScores where
  positive : Int
  neutral : Int
  negative : Int
  deriving DecidableEq, Repr

/-- Complete call information (`CallData` dataclass). -/
structure CallData where
  call_id : Nat
  phone_number : String
  customer_name : String
  status : CallStatus
  start_time : Int
  end_time : Option Int
  duration : Int
  transcript : List TranscriptMessage
  audio_metrics : List AudioMetrics
  sentiment_scores : SentimentScores
  objections_count : Int
  objections : List String
  questions_asked : Int
  transfer_to : Option String
  outcome : Option String
  recording_url : Option String
  room_name : Option String
  deriving DecidableEq, Repr

/-- An `HTTPException` raised by an endpoint: status code and detail string. -/
structure HttpError where
  status : Nat
  detail : String
  deriving DecidableEq, Repr

/-- Error taxonomy for the registry methods; `notFound` is the only kind the
spec assigns to them.  The `ConnectionManager` methods of the source raise
nothing, so their embedded error component is always `none`. -/
inductive DashError
  | notFound
  deriving DecidableEq, Repr

/-- The broadcast events the mutators emit (the `type` field of each JSON
message sent by the source, with the payload fields the source includes). -/
inductive Event
  | callStarted (id : Nat) (c : CallData)
  | statusUpdate (id : Nat) (st : CallStatus) (c : CallData)
  | transcriptUpdate (id : Nat) (m : TranscriptMessage)
  | audioMetrics (id : Nat) (m : AudioMetrics)
  deriving DecidableEq, Repr

/-- The registry state of `ConnectionManager`: the active partition
(`call_data` dict, as an insertion-ordered association list), the historical
list (`call_history`), and the fresh-identifier counter modelling
`uuid.uuid4()` freshness. -/
structure ManagerState where
  nextId : Nat
  active : List (Nat × CallData)
  history : List CallData
  deriving DecidableEq, Repr

/-- The state of a freshly constructed `ConnectionManager`. -/
def initialState : ManagerState := { nextId := 0, active := [], history := [] }

/-- Dictionary lookup `call_data[call_id]` / `call_id in call_data`. -/
def lookupA : List (Nat × CallData) → Nat → Option CallData
  | [], _ => none
  | e :: rest, id => if e.1 = id then some e.2 else lookupA rest id

/-- Replacing the record stored under a key (Python mutates the shared
object in place; functionally this is replacement at the key). -/
def setActive (a : List (Nat × CallData)) (id : Nat) (v : CallData) :
    List (Nat × CallData) :=
  a.map (fun e => if e.1 = id then (id, v) else e)

/-- `del call_data[call_id]`. -/
def eraseActive (a : List (Nat × CallData)) (id : Nat) :
    List (Nat × CallData) :=
  a.filter (fun e => decide (e.1 ≠ id))

/-- `call_id in manager.call_data` (membership in the active partition). -/
def activeContains (s : ManagerState) (id : Nat) : Bool :=
  s.active.any (fun e => e.1 == id)

/-- Whether some historical record carries this `call_id` (the search the
`get_call` endpoint performs over `call_history`). -/
def historyContains (s : ManagerState) (id : Nat) : Bool :=
  s.history.any (fun c => c.call_id == id)

/-- A call id visible in either partition. -/
def presentId (s : ManagerState) (id : Nat) : Bool :=
  activeContains s id || historyContains s id

/-- The Python expression `call.end_time if call.end_time else now`:
`None` and `0.0` are both falsy. -/
def endTimeOrNow : Option Int → Int → Int
  | none, now => now
  | some e, now => if e = 0 then now else e

/-- One entry of the partial-fields dict passed to `update_call_status`.
The source applies `setattr(call, key, value)` for every key that is an
attribute of `CallData`; unknown keys are skipped (`unknownField`). -/
inductive FieldUpd
  | call_id (v : Nat)
  | phone_number (v : String)
  | customer_name (v : String)
  | status (v : CallStatus)
  | start_time (v : Int)
  | end_time (v : Option Int)
  | duration (v : Int)
  | transcript (v : List TranscriptMessage)
  | audio_metrics (v : List AudioMetrics)
  | sentiment_scores (v : SentimentScores)
  | objections_count (v : Int)
  | objections (v : List String)
  | questions_asked (v : Int)
  | transfer_to (v : Option String)
  | outcome (v : Option String)
  | recording_url (v : Option String)
  | room_name (v : Option String)
  | unknownField
  deriving DecidableEq, Repr

/-- `setattr(call, key, value)` for one dict entry. -/
def applyUpd (c : CallData) : FieldUpd → CallData
  | .call_id v => { c with call_id := v }
  | .phone_number v => { c with phone_number := v }
  | .customer_name v => { c with customer_name := v }
  | .status v => { c with status := v }
  | .start_time v => { c with start_time := v }
  | .end_time v => { c with end_time := v }
  | .duration v => { c with duration := v }
  | .transcript v => { c with transcript := v }
  | .audio_metrics v => { c with audio_metrics := v }
  | .sentiment_scores v => { c with sentiment_scores := v }
  | .objections_count v => { c with objections_count := v }
  | .objections v => { c with objections := v }
  | .questions_asked v => { c with questions_asked := v }
  | .transfer_to v => { c with transfer_to := v }
  | .outcome v => { c with outcome := v }
  | .recording_url v => { c with recording_url := v }
  | .room_name v => { c with room_name := v }
  | .unknownField => c

/-- The `for key, value in data.items(): if hasattr... setattr...` loop. -/
def applyData (c : CallData) (l : List FieldUpd) : CallData :=
  l.foldl applyUpd c

/-- The body of `update_call_status` applied to the looked-up record:
set `status`, apply the optional partial-fields dict, then recompute
`duration` (lines 174-184 of the source). -/
def updateRecord (c : CallData) (st : CallStatus)
    (data : Option (List FieldUpd)) (now : Int) : CallData :=
  let c1 := { c with status := st }
  let c2 := match data with
    | none => c1
    | some l => applyData c1 l
  { c2 with duration := endTimeOrNow c2.end_time now - c2.start_time }

/-- `ConnectionManager.update_call_status` (lines 170-191).  If the id is
not an active key the method silently returns; otherwise it mutates the
record and broadcasts a `call_status_update` event with the full record. -/
def updateCallStatus (s : ManagerState) (id : Nat) (st : CallStatus)
    (data : Option (List FieldUpd)) (now : Int) :
    ManagerState × List Event × Option DashError :=
  match lookupA s.active id with
  | none => (s, [], none)
  | some c =>
    let c2 := updateRecord c st data now
    ({ s with active := setActive s.active id c2 },
     [Event.statusUpdate id st c2], none)

/-- `ConnectionManager.add_transcript` (lines 193-203). -/
def addTranscript (s : ManagerState) (id : Nat) (m : TranscriptMessage) :
    ManagerState × List Event × Option DashError :=
  match lookupA s.active id with
  | none => (s, [], none)
  | some c =>
    let c2 : CallData := { c with transcript := c.transcript ++ [m] }
    ({ s with active := setActive s.active id c2 },
     [Event.transcriptUpdate id m], none)

/-- The truncation `call.audio_metrics = call.audio_metrics[-100:]` applied
when the list has grown past 100 entries (lines 211-213). -/
def capMetrics (l : List AudioMetrics) : List AudioMetrics :=
  if l.length > 100 then l.drop (l.length - 100) else l

/-- `ConnectionManager.update_audio_metrics` (lines 205-219). -/
def updateAudioMetrics (s : ManagerState) (id : Nat) (m : AudioMetrics) :
    ManagerState × List Event × Option DashError :=
  match lookupA s.active id with
  | none => (s, [], none)
  | some c =>
    let c2 : CallData := { c with audio_metrics := capMetrics (c.audio_metrics ++ [m]) }
    ({ s with active := setActive s.active id c2 },
     [Event.audioMetrics id m], none)

/-- The statistics dict returned by `ConnectionManager.get_statistics`.
The zero-history branch of the source omits the `total_duration` key, hence
the `Option`. -/
structure Stats where
  total_calls : Nat
  active_calls : Nat
  successful_transfers : Nat
  average_duration : Rat
  success_rate : Rat
  total_duration : Option Int
  deriving DecidableEq, Repr

/-- `ConnectionManager.get_statistics` (lines 221-243): a pure read over the
state; it mutates nothing and broadcasts nothing (its embedding is a plain
function of the state). -/
def getStatistics (s : ManagerState) : Stats :=
  let total_calls := s.history.length
  if total_calls = 0 then
    { total_calls := 0, active_calls := 0, successful_transfers := 0,
      average_duration := 0, success_rate := 0, total_duration := none }
  else
    let successful := s.history.countP (fun c => c.outcome == some "transferred")
    let total_duration := (s.history.map CallData.duration).sum
    { total_calls := total_calls,
      active_calls := s.active.length,
      successful_transfers := successful,
      average_duration :=
        if total_calls > 0 then (total_duration : Rat) / (total_calls : Rat) else 0,
      success_rate :=
        if total_calls > 0 then (successful : Rat) / (total_calls : Rat) * 100 else 0,
      total_duration := some total_duration }

/-- The `CallData(...)` literal built by the `start_call` endpoint
(lines 290-308). -/
def mkCallData (cid : Nat) (phone customer : String) (now : Int)
    (xfer : String) : CallData :=
  { call_id := cid,
    phone_number := phone,
    customer_name := customer,
    status := CallStatus.dialing,
    start_time := now,
    end_time := none,
    duration := 0,
    transcript := [],
    audio_metrics := [],
    sentiment_scores := { positive := 0, neutral := 100, negative := 0 },
    objections_count := 0,
    objections := [],
    questions_asked := 0,
    transfer_to := some xfer,
    outcome := none,
    recording_url := none,
    room_name := some ("outbound-call-" ++ toString cid) }

/-- The `start_call` endpoint (lines 285-338).  The record is registered in
`call_data` BEFORE the dispatch attempt; a dispatch failure is caught and
re-raised as HTTP 500 with the original message, and the handler contains no
code removing the record.  On success the `call_started` event is broadcast
and the new call id plus dispatch id are returned. -/
def startCallOp (s : ManagerState) (phone customer xfer : String) (now : Int)
    (dispatch : Except String String) :
    ManagerState × List Event × Except HttpError (Nat × String) :=
  let cid := s.nextId
  let c := mkCallData cid phone customer now xfer
  let s1 : ManagerState :=
    { s with nextId := cid + 1, active := s.active ++ [(cid, c)] }
  match dispatch with
  | .ok did => (s1, [Event.callStarted cid c], .ok (cid, did))
  | .error msg => (s1, [], .error { status := 500, detail := msg })

/-- The `transfer_call` endpoint (lines 341-367): 404 if the id is not
active; otherwise the delegated SIP transfer runs first, and only on its
success is `update_call_status(call_id, TRANSFERRING, {transfer_to})`
invoked.  A delegated failure is caught and re-raised as HTTP 500 with the
original message; the single `ext` outcome argument reflects that the
delegated action is attempted exactly once (no retry). -/
def transferCallOp (s : ManagerState) (id : Nat) (dest : String)
    (ext : Except String Unit) (now : Int) :
    ManagerState × List Event × Except HttpError Unit :=
  match lookupA s.active id with
  | none => (s, [], .error { status := 404, detail := "Call not found" })
  | some _ =>
    match ext with
    | .error msg => (s, [], .error { status := 500, detail := msg })
    | .ok _ =>
      let r := updateCallStatus s id CallStatus.transferring
        (some [FieldUpd.transfer_to (some dest)]) now
      (r.1, r.2.1, .ok ())

/-- The `end_call` endpoint (lines 370-395): 404 if the id is not active;
the delegated room teardown runs first (failure caught and re-raised as
HTTP 500, nothing mutated); then `end_time` is set, `update_call_status`
runs with status `ENDED` (broadcasting one event), and the mutated record
object is appended to `call_history` while its key is deleted from
`call_data`. -/
def endCallOp (s : ManagerState) (id : Nat) (ext : Except String Unit)
    (now : Int) :
    ManagerState × List Event × Except HttpError Unit :=
  match lookupA s.active id with
  | none => (s, [], .error { status := 404, detail := "Call not found" })
  | some c =>
    match ext with
    | .error msg => (s, [], .error { status := 500, detail := msg })
    | .ok _ =>
      let c1 := { c with end_time := some now }
      let s1 : ManagerState := { s with active := setActive s.active id c1 }
      let r := updateCallStatus s1 id CallStatus.ended none now
      let c2 := updateRecord c1 CallStatus.ended none now
      ({ r.1 with active := eraseActive r.1.active id,
                  history := r.1.history ++ [c2] },
       r.2.1, .ok ())

/-- Python list slicing `call_history[-limit:]` as used by the `get_calls`
endpoint: a negative start index counts from the end (clamped at 0 by
`Int.toNat`), a non-negative one from the front. -/
def pySliceLast (l : List CallData) (limit : Int) : List CallData :=
  let start : Int := -limit
  if start < 0 then l.drop ((l.length : Int) + start).toNat
  else l.drop start.toNat

/-- The `get_calls` endpoint (lines 262-268): the slice of the history and
its total length. -/
def getCallsOp (s : ManagerState) (limit : Int) : List CallData × Nat :=
  (pySliceLast s.history limit, s.history.length)

/-- The `get_call` endpoint (lines 271-282): search the active partition by
key, then the history by the `call_id` field, else 404. -/
def getCallOp (s : ManagerState) (id : Nat) : Except HttpError CallData :=
  match lookupA s.active id with
  | some c => .ok c
  | none =>
    match s.history.find? (fun c => c.call_id == id) with
    | some c => .ok c
    | none => .error { status := 404, detail := "Call not found" }

/-- The per-connection send loop of `ConnectionManager.broadcast`
(lines 157-168): observers are modelled by `Nat` handles and the transport
outcome by the oracle `fails`.  Returns the observers the message was
delivered to and the `disconnected` set collected from failed sends. -/
def broadcastLoop (conns : List Nat) (fails : Nat → Bool) :
    List Nat × List Nat :=
  match conns with
  | [] => ([], [])
  | c :: rest =>
    let r := broadcastLoop rest fails
    if fails c then (r.1, c :: r.2) else (c :: r.1, r.2)

/-- `ConnectionManager.broadcast`: per-connection sends with local failure
capture, then `active_connections -= disconnected`.  Returns (delivered-to
observers, remaining observer set). -/
def broadcastFanout (conns : List Nat) (fails : Nat → Bool) :
    List Nat × List Nat :=
  let r := broadcastLoop conns fails
  (r.1, conns.filter (fun c => decide (c ∉ r.2)))

/-- A mutating operation on the registry, with the clock sample and the
delegated-action outcome it observes. -/
inductive Op
  | startOp (phone customer xfer : String) (now : Int)
      (dispatch : Except String String)
  | updateOp (id : Nat) (st : CallStatus) (data : Option (List FieldUpd))
      (now : Int)
  | transcriptOp (id : Nat) (m : TranscriptMessage)
  | audioOp (id : Nat) (m : AudioMetrics)
  | transferOp (id : Nat) (dest : String) (ext : Except String Unit)
      (now : Int)
  | endOp (id : Nat) (ext : Except String Unit) (now : Int)

/-- The state transition of one mutating operation. -/
def step (s : ManagerState) : Op → ManagerState
  | .startOp p n x now d => (startCallOp s p n x now d).1
  | .updateOp id st data now => (updateCallStatus s id st data now).1
  | .transcriptOp id m => (addTranscript s id m).1
  | .audioOp id m => (updateAudioMetrics s id m).1
  | .transferOp id dest ext now => (transferCallOp s id dest ext now).1
  | .endOp id ext now => (endCallOp s id ext now).1

/-- Running a sequence of mutating operations. -/
def run (s : ManagerState) (ops : List Op) : ManagerState :=
  ops.foldl step s

/-- Whether a partial-field update entry overwrites the `call_id` field. -/
def FieldUpd.isCallId : FieldUpd → Bool
  | .call_id _ => true
  | _ => false

/-- Whether an operation patches the `call_id` field through the
partial-fields dict of `update_call_status`. -/
def Op.patchesCallId : Op → Bool
  | .updateOp _ _ (some l) _ => l.any FieldUpd.isCallId
  | _ => false

/-- No operation of the sequence overwrites `call_id` via partial fields. -/
def NoCallIdPatch (ops : List Op) : Prop :=
  ∀ op ∈ ops, op.patchesCallId = false

instance : DecidablePred NoCallIdPatch := fun ops =>
  inferInstanceAs (Decidable (∀ op ∈ ops, op.patchesCallId = false))

/-- Repeated `update_audio_metrics` calls on one call id. -/
def runAudioAppends (s : ManagerState) (id : Nat) (ms : List AudioMetrics) :
    ManagerState :=
  ms.foldl (fun t m => (updateAudioMetrics t id m).1) s

/-- The call-id lists of both partitions: active keys, then historical
`call_id` fields. -/
def idsOf (s : ManagerState) : List Nat :=
  s.active.map Prod.fst ++ s.history.map CallData.call_id

/-- The registry invariant maintained by all operations that do not patch
`call_id`: all ids (active keys and historical fields) are pairwise
distinct, all are below the freshness counter, and every active record
carries its own key in its `call_id` field. -/
def Inv (s : ManagerState) : Prop :=
  (idsOf s).Nodup ∧
  (∀ x ∈ idsOf s, x < s.nextId) ∧
  (∀ e ∈ s.active, e.2.call_id = e.1)

/-! Concrete inputs used to instantiate the theorems below. -/

/-- A concrete audio-metric sample, distinguished by its timestamp. -/
def sampleAt (i : Nat) : AudioMetrics :=
  { timestamp := (i : Int), agent_volume := 0, customer_volume := 0,
    agent_speaking := false, customer_speaking := false,
    background_noise_level := 0 }

/-- The first `n` samples, in append order. -/
def sampleSeq (n : Nat) : List AudioMetrics := (List.range n).map sampleAt

/-- A concrete transcript message. -/
def msgHello : TranscriptMessage :=
  { id := "m1", speaker := SpeakerRole.customer, text := "hello",
    timestamp := 0, confidence := 1, sentiment := "neutral" }

/-- The state after one successful `start_call` on a fresh registry. -/
def sAfterStart : ManagerState :=
  (startCallOp initialState "+15550001" "Ana" "+15559999" 0 (Except.ok "d1")).1

/-- The record that `start_call` above creates. -/
def recAna : CallData := mkCallData 0 "+15550001" "Ana" 0 "+15559999"

/-- A registry with three historical records and no active call. -/
def sHist : ManagerState :=
  { nextId := 3, active := [],
    history := [mkCallData 0 "p0" "n0" 0 "x", mkCallData 1 "p1" "n1" 0 "x",
                mkCallData 2 "p2" "n2" 0 "x"] }

/-- Two calls are started; the first record's `call_id` field is then
overwritten to `1` through the partial-fields dict, and the first call is
ended, so its (patched) record lands in the history while call `1` is still
active. -/
def opsBoth : List Op :=
  [Op.startOp "+15550001" "Ana" "+15559999" 0 (Except.ok "d1"),
   Op.startOp "+15550002" "Bob" "+15559998" 0 (Except.ok "d2"),
   Op.updateOp 0 CallStatus.connected (some [FieldUpd.call_id 1]) 0,
   Op.endOp 0 (Except.ok ()) 1]

/-- One call started, then its `call_id` field overwritten to `7`. -/
def opsPatchOnly : List Op :=
  [Op.startOp "+15550001" "Ana" "+15559999" 0 (Except.ok "d1"),
   Op.updateOp 0 CallStatus.connected (some [FieldUpd.call_id 7]) 0]

/-- Just the first operation of `opsPatchOnly`. -/
def opsStartOnly : List Op :=
  [Op.startOp "+15550001" "Ana" "+15559999" 0 (Except.ok "d1")]

/-- An ordinary lifecycle: start, a status update, then end. -/
def opsRegular : List Op :=
  [Op.startOp "+15550001" "Ana" "+15559999" 0 (Except.ok "d1"),
   Op.updateOp 0 CallStatus.connected none 1,
   Op.endOp 0 (Except.ok ()) 2]

/-! ## Helper lemmas about the association-list primitives -/

theorem lookupA_mem {a : List (Nat × CallData)} {id : Nat} {c : CallData}
    (h : lookupA a id = some c) : (id, c) ∈ a := by
  induction a with
  | nil => simp [lookupA] at h
  | cons e rest ih =>
    rw [lookupA] at h
    by_cases he : e.1 = id
    · rw [if_pos he] at h
      injection h with h2
      subst he
      subst h2
      exact List.mem_cons_self _ _
    · rw [if_neg he] at h
      exact List.mem_cons_of_mem e (ih h)

theorem lookupA_setActive_self {a : List (Nat × CallData)} {id : Nat}
    {c : CallData} (h : lookupA a id = some c) (v : CallData) :
    lookupA (setActive a id v) id = some v := by
  induction a with
  | nil => simp [lookupA] at h
  | cons e rest ih =>
    rw [lookupA] at h
    by_cases he : e.1 = id
    · simp [setActive, lookupA, he]
    · rw [if_neg he] at h
      have hs : setActive (e :: rest) id v = e :: setActive rest id v := by
        simp [setActive, he]
      rw [hs, lookupA, if_neg he]
      exact ih h

theorem setActive_map_fst (a : List (Nat × CallData)) (id : Nat)
    (v : CallData) : (setActive a id v).map Prod.fst = a.map Prod.fst := by
  induction a with
  | nil => rfl
  | cons e rest ih =>
    simp only [setActive, List.map_cons] at ih ⊢
    by_cases he : e.1 = id
    · simp [he, ih]
    · simp [he, ih]

theorem mem_setActive {a : List (Nat × CallData)} {id : Nat} {v : CallData}
    {e : Nat × CallData} (h : e ∈ setActive a id v) :
    e = (id, v) ∨ e ∈ a := by
  simp only [setActive, List.mem_map] at h
  obtain ⟨e0, he0, heq⟩ := h
  by_cases h0 : e0.1 = id
  · rw [if_pos h0] at heq
    exact Or.inl heq.symm
  · rw [if_neg h0] at heq
    exact Or.inr (heq ▸ he0)

theorem eraseActive_map_fst (a : List (Nat × CallData)) (id : Nat) :
    (eraseActive a id).map Prod.fst
      = (a.map Prod.fst).filter (fun x => decide (x ≠ id)) := by
  rw [eraseActive, List.filter_map]
  rfl

theorem mem_eraseActive {a : List (Nat × CallData)} {id : Nat}
    {e : Nat × CallData} (h : e ∈ eraseActive a id) : e ∈ a ∧ e.1 ≠ id := by
  simpa [eraseActive, List.mem_filter] using h

theorem activeContains_iff {s : ManagerState} {id : Nat} :
    activeContains s id = true ↔ id ∈ s.active.map Prod.fst := by
  simp only [activeContains, List.any_eq_true, List.mem_map, beq_iff_eq]

theorem historyContains_iff {s : ManagerState} {id : Nat} :
    historyContains s id = true ↔ id ∈ s.history.map CallData.call_id := by
  simp only [historyContains, List.any_eq_true, List.mem_map, beq_iff_eq]

/-! ## C7: broadcast fan-out isolates per-observer delivery failures -/

theorem broadcastLoop_eq (conns : List Nat) (fails : Nat → Bool) :
    broadcastLoop conns fails
      = (conns.filter (fun c => !fails c), conns.filter fails) := by
  induction conns with
  | nil => rfl
  | cons c rest ih =>
    rw [broadcastLoop, ih]
    cases h : fails c <;> simp [List.filter_cons, h]

/-- C7: `broadcast` delivers the event to every currently connected observer
independently: the message reaches exactly the observers whose own transport
does not fail (so one observer's failure never blocks delivery to another),
and the observers whose delivery failed — and only those — are removed from
the connection set as a side effect. -/
theorem broadcast_isolates_failed_observers (conns : List Nat)
    (fails : Nat → Bool) :
    (broadcastFanout conns fails).1 = conns.filter (fun c => !fails c) ∧
    (broadcastFanout conns fails).2 = conns.filter (fun c => !fails c) := by
  constructor
  · simp [broadcastFanout, broadcastLoop_eq]
  · simp only [broadcastFanout, broadcastLoop_eq]
    apply List.filter_congr
    intro x hx
    simp [List.mem_filter, hx]

/-! ## C6: statistics on an empty history -/

/-- C6: when the historical list is empty, `get_statistics` returns
`success_rate = 0` and `average_duration = 0` (the zero-history branch of
the source returns constants and performs no division).  The embedding of
`get_statistics` is a plain function of the state — it has no state or
event output — reflecting that the method reads but never mutates and never
broadcasts. -/
theorem get_statistics_zero_history (s : ManagerState)
    (h : s.history = []) :
    (getStatistics s).success_rate = 0 ∧
    (getStatistics s).average_duration = 0 := by
  simp [getStatistics, h]

theorem get_statistics_zero_history_witness :
    (getStatistics initialState).success_rate = 0 ∧
    (getStatistics initialState).average_duration = 0 :=
  get_statistics_zero_history initialState rfl

/-! ## C2: mutators on a call id that is not in the active partition -/

/-- C2 counterexample: the claim says `update_status` on an unknown call id
"fails with NotFound", but `ConnectionManager.update_call_status` has no
error path at all: on a never-created id it returns normally (error
component `none`, not `NotFound`), leaving the state unchanged and
broadcasting nothing. -/
theorem update_status_unknown_id_returns_normally :
    updateCallStatus initialState 0 CallStatus.connected none 0
      = (initialState, [], none) ∧
    (none : Option DashError) ≠ some DashError.notFound := by
  exact ⟨by decide, by decide⟩

/-- C2 amended: on a call id absent from the active partition,
`update_status`, `append_transcript` and `append_audio_metric` return
normally with the state unchanged and no broadcast (they silently no-op,
signalling no NotFound error), while `transfer` fails with NotFound
(HTTP 404) and likewise leaves the state unchanged and broadcasts
nothing. -/
theorem inactive_id_mutators_behavior (s : ManagerState) (id : Nat)
    (h : lookupA s.active id = none) (st : CallStatus)
    (data : Option (List FieldUpd)) (now : Int) (m : TranscriptMessage)
    (am : AudioMetrics) (dest : String) (ext : Except String Unit) :
    updateCallStatus s id st data now = (s, [], none) ∧
    addTranscript s id m = (s, [], none) ∧
    updateAudioMetrics s id am = (s, [], none) ∧
    transferCallOp s id dest ext now
      = (s, [], Except.error { status := 404, detail := "Call not found" }) := by
  refine ⟨?_, ?_, ?_, ?_⟩ <;>
    simp [updateCallStatus, addTranscript, updateAudioMetrics,
      transferCallOp, h]

theorem inactive_id_mutators_behavior_witness :
    updateCallStatus initialState 5 CallStatus.connected none 0
      = (initialState, [], none) ∧
    addTranscript initialState 5 msgHello = (initialState, [], none) ∧
    updateAudioMetrics initialState 5 (sampleAt 0)
      = (initialState, [], none) ∧
    transferCallOp initialState 5 "+15551111" (Except.ok ()) 0
      = (initialState, [],
         Except.error { status := 404, detail := "Call not found" }) :=
  inactive_id_mutators_behavior initialState 5 rfl CallStatus.connected none
    0 msgHello (sampleAt 0) "+15551111" (Except.ok ())

/-! ## C8: delegated transfer failure leaves the record unchanged -/

/-- C8: if the delegated external transfer action fails while the call is
active, `transfer_call` returns the state completely unchanged (no field of
any record modified), broadcasts no event, and surfaces the delegated
error to the caller as HTTP 500 carrying the original message.  The single
`ext` outcome argument of the embedding reflects that the delegated action
is consulted exactly once — no retry is representable. -/
theorem transfer_failure_leaves_record_unchanged (s : ManagerState)
    (id : Nat) (c : CallData) (h : lookupA s.active id = some c)
    (dest msg : String) (now : Int) :
    transferCallOp s id dest (Except.error msg) now
      = (s, [], Except.error { status := 500, detail := msg }) := by
  simp [transferCallOp, h]

theorem transfer_failure_leaves_record_unchanged_witness :
    transferCallOp sAfterStart 0 "+15551111" (Except.error "sip error") 2
      = (sAfterStart, [],
         Except.error { status := 500, detail := "sip error" }) :=
  transfer_failure_leaves_record_unchanged sAfterStart 0 recAna (by decide)
    "+15551111" "sip error" 2

/-! ## C1: dispatch failure during start_call does not roll back -/

/-- C1 (code bug exhibit): `start_call` registers the new record in
`call_data` before attempting the dispatch; when the dispatch fails the
handler re-raises HTTP 500 and broadcasts nothing, but contains no code
removing the record, so the freshly created record IS left registered in
the active partition — the rollback the spec requires does not happen. -/
theorem start_call_dispatch_failure_keeps_record_registered :
    (startCallOp initialState "+15550001" "Ana" "+15559999" 0
        (Except.error "dispatch failed")).2.2
      = Except.error { status := 500, detail := "dispatch failed" } ∧
    (startCallOp initialState "+15550001" "Ana" "+15559999" 0
        (Except.error "dispatch failed")).2.1 = [] ∧
    activeContains (startCallOp initialState "+15550001" "Ana" "+15559999" 0
        (Except.error "dispatch failed")).1 0 = true := by
  exact ⟨by decide, by decide, by decide⟩

/-! ## C5: duration is stored, recomputed only by update_status -/

/-- C5 counterexample: the claim says the duration reported at every read
equals `(end_time or now) - start_time`.  But after a successful
`start_call` at time 0, reading the record through the `get_call` endpoint
at current time 5 reports the stored `duration = 0`, not `5 - 0`: the
reported duration is a stored field, not a pure function of the two
timestamps and the reading time. -/
theorem duration_reported_stale_at_read :
    (getCallOp sAfterStart 0).map
      (fun c => decide (c.duration = endTimeOrNow c.end_time 5 - c.start_time))
      = Except.ok false := by decide

/-- C5 amended: `duration` is a stored field of the record: `start_call`
stores 0, and each `update_call_status` recomputes the stored value as
`(end_time if truthy else now) - start_time` from the record's (possibly
just patched) timestamps, sampling `now` at update time; reads report the
last stored value. -/
theorem duration_recomputed_on_update (s : ManagerState) (id : Nat)
    (c : CallData) (h : lookupA s.active id = some c) (st : CallStatus)
    (data : Option (List FieldUpd)) (now : Int) (cid : Nat)
    (p n x : String) (t0 : Int) :
    lookupA ((updateCallStatus s id st data now).1.active) id
      = some (updateRecord c st data now) ∧
    (updateRecord c st data now).duration
      = endTimeOrNow (updateRecord c st data now).end_time now
        - (updateRecord c st data now).start_time ∧
    (mkCallData cid p n t0 x).duration = 0 := by
  refine ⟨?_, rfl, rfl⟩
  simp only [updateCallStatus, h]
  exact lookupA_setActive_self h _

theorem duration_recomputed_on_update_witness :
    lookupA ((updateCallStatus sAfterStart 0 CallStatus.connected none
        5).1.active) 0
      = some (updateRecord recAna CallStatus.connected none 5) ∧
    (updateRecord recAna CallStatus.connected none 5).duration
      = endTimeOrNow (updateRecord recAna CallStatus.connected none
          5).end_time 5
        - (updateRecord recAna CallStatus.connected none 5).start_time ∧
    (mkCallData 0 "+15550001" "Ana" 0 "+15559999").duration = 0 :=
  duration_recomputed_on_update sAfterStart 0 recAna (by decide)
    CallStatus.connected none 5 0 "+15550001" "Ana" "+15559999" 0

/-! ## C10: get_calls with limit 0 returns the whole history -/

/-- C10: the `get_calls` endpoint slices the history with
`call_history[-limit:]`; with `limit = 0` the slice is `[-0:] = [0:]`, the
entire history in insertion order, and for every positive `limit` it is the
last `limit` historical records in insertion order. -/
theorem get_calls_limit_zero_returns_whole_history (s : ManagerState)
    (limit : Int) :
    (getCallsOp s 0).1 = s.history ∧
    (0 < limit → (getCallsOp s limit).1
        = s.history.drop (s.history.length - limit.toNat)) := by
  constructor
  · simp [getCallsOp, pySliceLast]
  · intro hl
    simp only [getCallsOp, pySliceLast]
    rw [if_pos (by omega : -limit < 0)]
    congr 1
    omega

theorem get_calls_limit_zero_returns_whole_history_witness :
    (getCallsOp sHist 0).1 = sHist.history ∧
    (getCallsOp sHist 2).1
      = sHist.history.drop (sHist.history.length - (2 : Int).toNat) :=
  ⟨(get_calls_limit_zero_returns_whole_history sHist 0).1,
   (get_calls_limit_zero_returns_whole_history sHist 2).2 (by decide)⟩

/-! ## C4: the audio-metric window keeps the 100 newest samples -/

theorem capMetrics_eq_drop (l : List AudioMetrics) :
    capMetrics l = l.drop (l.length - 100) := by
  rw [capMetrics]
  split
  · rfl
  · next h =>
    have h0 : l.length - 100 = 0 := by omega
    rw [h0, List.drop_zero]

theorem foldl_cap_eq (ms : List AudioMetrics) :
    ∀ l : List AudioMetrics, l.length ≤ 100 →
      ms.foldl (fun acc m => capMetrics (acc ++ [m])) l
        = (l ++ ms).drop (l.length + ms.length - 100) := by
  induction ms with
  | nil =>
    intro l hl
    have h0 : l.length + List.length ([] : List AudioMetrics) - 100 = 0 := by
      simp only [List.length_nil]
      omega
    rw [List.foldl_nil, List.append_nil, h0, List.drop_zero]
  | cons m ms ih =>
    intro l hl
    rw [List.foldl_cons]
    have hcap : capMetrics (l ++ [m])
        = (l ++ [m]).drop (l.length + 1 - 100) := by
      rw [capMetrics_eq_drop]
      congr 1
      simp
    have hlen : (capMetrics (l ++ [m])).length
        = l.length + 1 - (l.length + 1 - 100) := by
      rw [hcap, List.length_drop]
      congr 1
      simp
    have hle : (capMetrics (l ++ [m])).length ≤ 100 := by omega
    rw [ih _ hle, hcap,
      ← List.drop_append_of_le_length (by simp; omega), List.drop_drop]
    have happ : (l ++ [m]) ++ ms = l ++ m :: ms := by simp
    rw [happ]
    congr 1
    simp only [List.length_drop, List.length_append, List.length_cons,
      List.length_nil]
    omega

theorem runAudioAppends_lookup (ms : List AudioMetrics) :
    ∀ (s : ManagerState) (id : Nat) (c : CallData),
      lookupA s.active id = some c →
      lookupA (runAudioAppends s id ms).active id
        = some { c with audio_metrics := ms.foldl (fun acc m => capMetrics (acc ++ [m])) c.audio_metrics } := by
  induction ms with
  | nil =>
    intro s id c h
    simpa [runAudioAppends] using h
  | cons m ms ih =>
    intro s id c h
    have hstep : (updateAudioMetrics s id m).1
        = { s with active := setActive s.active id ({ c with audio_metrics := capMetrics (c.audio_metrics ++ [m]) }) } := by
      simp [updateAudioMetrics, h]
    have h2 : lookupA (setActive s.active id ({ c with audio_metrics := capMetrics (c.audio_metrics ++ [m]) })) id
        = some ({ c with audio_metrics := capMetrics (c.audio_metrics ++ [m]) }) :=
      lookupA_setActive_self h _
    have hrun : runAudioAppends s id (m :: ms)
        = runAudioAppends (updateAudioMetrics s id m).1 id ms := rfl
    rw [hrun, hstep]
    exact ih { s with active := setActive s.active id ({ c with audio_metrics := capMetrics (c.audio_metrics ++ [m]) }) } id _ h2

set_option maxRecDepth 1000000 in
/-- C4: starting from a record with an empty metric list (as `start_call`
creates), any sequence of `append_audio_metric` calls leaves the record
storing exactly the newest (at most 100) samples in append order —
`ms.drop (ms.length - 100)` — so the length never exceeds 100; in
particular after 120 sequential appends the stored length is exactly 100
and the first stored element is sample number 21 (index 20) of the 120
appended. -/
theorem audio_metrics_window (s : ManagerState) (id : Nat) (c : CallData)
    (hc : lookupA s.active id = some c) (h0 : c.audio_metrics = [])
    (ms : List AudioMetrics) :
    lookupA (runAudioAppends s id ms).active id
      = some { c with audio_metrics := ms.drop (ms.length - 100) } ∧
    (ms.drop (ms.length - 100)).length = min ms.length 100 ∧
    (lookupA (runAudioAppends sAfterStart 0 (sampleSeq 120)).active 0).map
      (fun c2 => (c2.audio_metrics.length, c2.audio_metrics.head?))
      = some (100, some (sampleAt 20)) := by
  refine ⟨?_, ?_, by decide⟩
  · have hg := runAudioAppends_lookup ms s id c hc
    rw [h0, foldl_cap_eq ms [] (by simp)] at hg
    simpa using hg
  · rw [List.length_drop]
    omega

theorem audio_metrics_window_witness :
    lookupA (runAudioAppends sAfterStart 0 (sampleSeq 120)).active 0
      = some { recAna with audio_metrics := (sampleSeq 120).drop ((sampleSeq 120).length - 100) } ∧
    ((sampleSeq 120).drop ((sampleSeq 120).length - 100)).length
      = min (sampleSeq 120).length 100 ∧
    (lookupA (runAudioAppends sAfterStart 0 (sampleSeq 120)).active 0).map
      (fun c2 => (c2.audio_metrics.length, c2.audio_metrics.head?))
      = some (100, some (sampleAt 20)) :=
  audio_metrics_window sAfterStart 0 recAna (by decide) rfl (sampleSeq 120)

/-! ## Machinery for C3 and C9: the registry invariant over operation runs -/

theorem applyUpd_call_id {c : CallData} {u : FieldUpd}
    (h : u.isCallId = false) : (applyUpd c u).call_id = c.call_id := by
  cases u <;> simp_all [applyUpd, FieldUpd.isCallId]

theorem applyData_call_id {l : List FieldUpd} :
    ∀ {c : CallData}, (∀ u ∈ l, u.isCallId = false) →
      (applyData c l).call_id = c.call_id := by
  induction l with
  | nil =>
    intro c _
    rfl
  | cons u l ih =>
    intro c h
    have hstep : applyData c (u :: l) = applyData (applyUpd c u) l := rfl
    rw [hstep, ih (fun v hv => h v (List.mem_cons_of_mem u hv))]
    exact applyUpd_call_id (h u (List.mem_cons_self u l))

theorem updateRecord_call_id {c : CallData} {st : CallStatus}
    {data : Option (List FieldUpd)} {now : Int}
    (h : ∀ l, data = some l → ∀ u ∈ l, u.isCallId = false) :
    (updateRecord c st data now).call_id = c.call_id := by
  cases data with
  | none => rfl
  | some l => exact applyData_call_id (h l rfl)

theorem inv_setActive {s : ManagerState} {id : Nat} {c v : CallData}
    (hs : Inv s) (h : lookupA s.active id = some c)
    (hv : v.call_id = c.call_id) :
    Inv { s with active := setActive s.active id v } := by
  obtain ⟨h1, h2, h3⟩ := hs
  have hc : c.call_id = id := h3 (id, c) (lookupA_mem h)
  refine ⟨?_, ?_, ?_⟩
  · simpa [idsOf, setActive_map_fst] using h1
  · intro y hy
    refine h2 y ?_
    simpa [idsOf, setActive_map_fst] using hy
  · intro e he
    rcases mem_setActive he with h4 | h4
    · subst h4
      exact hv.trans hc
    · exact h3 e h4

theorem inv_updateCallStatus {s : ManagerState} {id : Nat}
    {st : CallStatus} {data : Option (List FieldUpd)} {now : Int}
    (hs : Inv s)
    (hd : ∀ l, data = some l → ∀ u ∈ l, u.isCallId = false) :
    Inv (updateCallStatus s id st data now).1 := by
  cases h : lookupA s.active id with
  | none => simpa [updateCallStatus, h] using hs
  | some c =>
    have hu : (updateCallStatus s id st data now).1
        = { s with active := setActive s.active id (updateRecord c st data now) } := by
      simp [updateCallStatus, h]
    rw [hu]
    exact inv_setActive hs h (updateRecord_call_id hd)

theorem inv_addTranscript {s : ManagerState} {id : Nat}
    {m : TranscriptMessage} (hs : Inv s) : Inv (addTranscript s id m).1 := by
  cases h : lookupA s.active id with
  | none => simpa [addTranscript, h] using hs
  | some c =>
    have hu : (addTranscript s id m).1
        = { s with active := setActive s.active id ({ c with transcript := c.transcript ++ [m] }) } := by
      simp [addTranscript, h]
    rw [hu]
    exact inv_setActive hs h rfl

theorem inv_updateAudioMetrics {s : ManagerState} {id : Nat}
    {m : AudioMetrics} (hs : Inv s) : Inv (updateAudioMetrics s id m).1 := by
  cases h : lookupA s.active id with
  | none => simpa [updateAudioMetrics, h] using hs
  | some c =>
    have hu : (updateAudioMetrics s id m).1
        = { s with active := setActive s.active id ({ c with audio_metrics := capMetrics (c.audio_metrics ++ [m]) }) } := by
      simp [updateAudioMetrics, h]
    rw [hu]
    exact inv_setActive hs h rfl

theorem inv_transferCall {s : ManagerState} {id : Nat} {dest : String}
    {ext : Except String Unit} {now : Int} (hs : Inv s) :
    Inv (transferCallOp s id dest ext now).1 := by
  cases h : lookupA s.active id with
  | none => simpa [transferCallOp, h] using hs
  | some c =>
    cases ext with
    | error msg => simpa [transferCallOp, h] using hs
    | ok u =>
      have hu : (transferCallOp s id dest (Except.ok u) now).1
          = (updateCallStatus s id CallStatus.transferring (some [FieldUpd.transfer_to (some dest)]) now).1 := by
        simp [transferCallOp, h]
      rw [hu]
      refine inv_updateCallStatus hs ?_
      intro l hl u2 hu2
      injection hl with hl2
      subst hl2
      simp only [List.mem_singleton] at hu2
      subst hu2
      rfl

theorem inv_startCall {s : ManagerState} (hs : Inv s) (p n x : String)
    (now : Int) (d : Except String String) :
    Inv (startCallOp s p n x now d).1 := by
  obtain ⟨h1, h2, h3⟩ := hs
  have hst : (startCallOp s p n x now d).1
      = { s with nextId := s.nextId + 1,
                 active := s.active ++ [(s.nextId, mkCallData s.nextId p n now x)] } := by
    cases d <;> rfl
  rw [hst]
  have hni : s.nextId ∉ s.active.map Prod.fst ++ s.history.map CallData.call_id := by
    intro hmem
    exact absurd (h2 _ hmem) (lt_irrefl _)
  refine ⟨?_, ?_, ?_⟩
  · have hform : idsOf { s with nextId := s.nextId + 1, active := s.active ++ [(s.nextId, mkCallData s.nextId p n now x)] }
        = s.active.map Prod.fst ++ s.nextId :: s.history.map CallData.call_id := by
      simp [idsOf]
    rw [hform, List.nodup_middle]
    exact List.nodup_cons.mpr ⟨hni, h1⟩
  · intro y hy
    have hform : idsOf { s with nextId := s.nextId + 1, active := s.active ++ [(s.nextId, mkCallData s.nextId p n now x)] }
        = s.active.map Prod.fst ++ s.nextId :: s.history.map CallData.call_id := by
      simp [idsOf]
    rw [hform] at hy
    show y < s.nextId + 1
    rcases List.mem_append.mp hy with hA | hB
    · have := h2 y (List.mem_append_left _ hA)
      omega
    · rcases List.mem_cons.mp hB with h5 | h5
      · omega
      · have := h2 y (List.mem_append_right _ h5)
        omega
  · intro e he
    rcases List.mem_append.mp he with hA | hB
    · exact h3 e hA
    · have h5 : e = (s.nextId, mkCallData s.nextId p n now x) := by
        simpa using hB
      subst h5
      rfl

theorem setActive_setActive (a : List (Nat × CallData)) (id : Nat)
    (u w : CallData) :
    setActive (setActive a id u) id w = setActive a id w := by
  simp only [setActive, List.map_map]
  apply List.map_congr_left
  intro e _
  by_cases he : e.1 = id <;> simp [Function.comp, he]

theorem eraseActive_setActive (a : List (Nat × CallData)) (id : Nat)
    (v : CallData) :
    eraseActive (setActive a id v) id = eraseActive a id := by
  rw [eraseActive, setActive, List.filter_map, eraseActive]
  have h1 : List.filter ((fun e => decide (e.1 ≠ id)) ∘ fun e => if e.1 = id then (id, v) else e) a
      = List.filter (fun e => decide (e.1 ≠ id)) a := by
    apply List.filter_congr
    intro e _
    by_cases he : e.1 = id <;> simp [Function.comp, he]
  rw [h1]
  have h2 : ∀ e ∈ List.filter (fun e => decide (e.1 ≠ id)) a,
      (if e.1 = id then (id, v) else e) = e := by
    intro e he
    have hne := (List.mem_filter.mp he).2
    simp only [decide_eq_true_eq] at hne
    simp [hne]
  rw [List.map_congr_left h2]
  simp

theorem endCallOp_ok_state {s : ManagerState} {id : Nat} {c : CallData}
    (h : lookupA s.active id = some c) (now : Int) :
    (endCallOp s id (Except.ok ()) now).1
      = { s with active := eraseActive s.active id,
                 history := s.history ++ [updateRecord { c with end_time := some now } CallStatus.ended none now] } := by
  have hl : lookupA (setActive s.active id ({ c with end_time := some now })) id
      = some ({ c with end_time := some now }) := lookupA_setActive_self h _
  simp only [endCallOp, h, updateCallStatus, hl]
  rw [setActive_setActive, eraseActive_setActive]

theorem inv_endCall {s : ManagerState} {id : Nat}
    {ext : Except String Unit} {now : Int} (hs : Inv s) :
    Inv (endCallOp s id ext now).1 := by
  cases h : lookupA s.active id with
  | none => simpa [endCallOp, h] using hs
  | some c =>
    cases ext with
    | error msg => simpa [endCallOp, h] using hs
    | ok u =>
      cases u
      rw [endCallOp_ok_state h now]
      obtain ⟨h1, h2, h3⟩ := hs
      have h1A : (s.active.map Prod.fst ++ s.history.map CallData.call_id).Nodup := h1
      have hcid : c.call_id = id := h3 (id, c) (lookupA_mem h)
      have hc2 : (updateRecord { c with end_time := some now } CallStatus.ended none now).call_id = id := by
        have := @updateRecord_call_id ({ c with end_time := some now })
          CallStatus.ended none now (fun l hl => by cases hl)
        rw [this]
        exact hcid
      have hidA : id ∈ s.active.map Prod.fst :=
        List.mem_map.mpr ⟨(id, c), lookupA_mem h, rfl⟩
      have hdisj : List.Disjoint (s.active.map Prod.fst)
          (s.history.map CallData.call_id) := (List.nodup_append.mp h1A).2.2
      have hidH : id ∉ s.history.map CallData.call_id := fun hm => hdisj hidA hm
      have hform : idsOf { s with active := eraseActive s.active id, history := s.history ++ [updateRecord { c with end_time := some now } CallStatus.ended none now] }
          = (s.active.map Prod.fst).filter (fun y => decide (y ≠ id))
            ++ (s.history.map CallData.call_id ++ [id]) := by
        simp [idsOf, eraseActive_map_fst, hc2]
      refine ⟨?_, ?_, ?_⟩
      · rw [hform, ← List.append_assoc]
        rw [List.nodup_append]
        refine ⟨?_, List.nodup_singleton id, ?_⟩
        · refine List.Nodup.sublist ?_ h1A
          exact List.Sublist.append (List.filter_sublist _) (List.Sublist.refl _)
        · intro y hy hy2
          rcases List.mem_singleton.mp hy2 with rfl
          rcases List.mem_append.mp hy with hA | hB
          · have := (List.mem_filter.mp hA).2
            simp at this
          · exact hidH hB
      · intro y hy
        rw [hform] at hy
        show y < s.nextId
        rcases List.mem_append.mp hy with hA | hB
        · exact h2 y (List.mem_append_left _ ((List.mem_filter.mp hA).1))
        · rcases List.mem_append.mp hB with h5 | h5
          · exact h2 y (List.mem_append_right _ h5)
          · rcases List.mem_singleton.mp h5 with rfl
            exact h2 y (List.mem_append_left _ hidA)
      · intro e he
        exact h3 e (mem_eraseActive he).1

/-- The invariant is preserved by every operation that does not patch
`call_id`. -/
theorem inv_step {s : ManagerState} {op : Op} (hs : Inv s)
    (hop : op.patchesCallId = false) : Inv (step s op) := by
  cases op with
  | startOp p n x now d => exact inv_startCall hs p n x now d
  | updateOp id st data now =>
    refine inv_updateCallStatus hs ?_
    intro l hl u hu
    subst hl
    simp only [Op.patchesCallId, List.any_eq_false, Bool.not_eq_true] at hop
    exact hop u hu
  | transcriptOp id m => exact inv_addTranscript hs
  | audioOp id m => exact inv_updateAudioMetrics hs
  | transferOp id dest ext now => exact inv_transferCall hs
  | endOp id ext now => exact inv_endCall hs

theorem inv_initial : Inv initialState := by
  refine ⟨?_, ?_, ?_⟩
  · exact List.nodup_nil
  · intro y hy
    simp [idsOf, initialState] at hy
  · intro e he
    simp [initialState] at he

theorem inv_run : ∀ (ops : List Op), NoCallIdPatch ops →
    ∀ s : ManagerState, Inv s → Inv (run s ops) := by
  intro ops
  induction ops with
  | nil =>
    intro _ s hs
    exact hs
  | cons op ops ih =>
    intro h s hs
    show Inv (List.foldl step (step s op) ops)
    exact ih (fun o ho => h o (List.mem_cons_of_mem op ho)) (step s op)
      (inv_step hs (h op (List.mem_cons_self op ops)))

theorem presentId_iff {s : ManagerState} {y : Nat} :
    presentId s y = true ↔
      y ∈ s.active.map Prod.fst ∨ y ∈ s.history.map CallData.call_id := by
  simp [presentId, Bool.or_eq_true, activeContains_iff, historyContains_iff]

theorem present_of_same_keys {s t : ManagerState} {y : Nat}
    (ha : t.active.map Prod.fst = s.active.map Prod.fst)
    (hh : t.history = s.history)
    (hp : presentId s y = true) : presentId t y = true := by
  rw [presentId_iff] at hp ⊢
  rw [ha, hh]
  exact hp

theorem updateCallStatus_keys (s : ManagerState) (id : Nat)
    (st : CallStatus) (data : Option (List FieldUpd)) (now : Int) :
    (updateCallStatus s id st data now).1.active.map Prod.fst
        = s.active.map Prod.fst ∧
    (updateCallStatus s id st data now).1.history = s.history := by
  cases h : lookupA s.active id with
  | none => simp [updateCallStatus, h]
  | some c => simp [updateCallStatus, h, setActive_map_fst]

theorem addTranscript_keys (s : ManagerState) (id : Nat)
    (m : TranscriptMessage) :
    (addTranscript s id m).1.active.map Prod.fst = s.active.map Prod.fst ∧
    (addTranscript s id m).1.history = s.history := by
  cases h : lookupA s.active id with
  | none => simp [addTranscript, h]
  | some c => simp [addTranscript, h, setActive_map_fst]

theorem updateAudioMetrics_keys (s : ManagerState) (id : Nat)
    (m : AudioMetrics) :
    (updateAudioMetrics s id m).1.active.map Prod.fst
        = s.active.map Prod.fst ∧
    (updateAudioMetrics s id m).1.history = s.history := by
  cases h : lookupA s.active id with
  | none => simp [updateAudioMetrics, h]
  | some c => simp [updateAudioMetrics, h, setActive_map_fst]

theorem transferCallOp_keys (s : ManagerState) (id : Nat) (dest : String)
    (ext : Except String Unit) (now : Int) :
    (transferCallOp s id dest ext now).1.active.map Prod.fst
        = s.active.map Prod.fst ∧
    (transferCallOp s id dest ext now).1.history = s.history := by
  cases h : lookupA s.active id with
  | none => simp [transferCallOp, h]
  | some c =>
    cases ext with
    | error msg => simp [transferCallOp, h]
    | ok u =>
      have hu : (transferCallOp s id dest (Except.ok u) now).1
          = (updateCallStatus s id CallStatus.transferring (some [FieldUpd.transfer_to (some dest)]) now).1 := by
        simp [transferCallOp, h]
      rw [hu]
      exact updateCallStatus_keys s id CallStatus.transferring _ now

theorem present_after_start {s : ManagerState} {p n x : String} {now : Int}
    {d : Except String String} :
    presentId (step s (Op.startOp p n x now d)) s.nextId = true := by
  have hst : step s (Op.startOp p n x now d)
      = { s with nextId := s.nextId + 1,
                 active := s.active ++ [(s.nextId, mkCallData s.nextId p n now x)] } := by
    cases d <;> rfl
  rw [hst, presentId_iff]
  left
  simp

/-- Once a call id is visible in one of the partitions, every further
operation keeps it visible in one of them (the end operation moves it from
the active keys to the historical `call_id` fields). -/
theorem present_step {s : ManagerState} {op : Op} {y : Nat} (hs : Inv s)
    (hp : presentId s y = true) : presentId (step s op) y = true := by
  cases op with
  | startOp p n x now d =>
    have hst : step s (Op.startOp p n x now d)
        = { s with nextId := s.nextId + 1,
                   active := s.active ++ [(s.nextId, mkCallData s.nextId p n now x)] } := by
      cases d <;> rfl
    rw [hst, presentId_iff]
    rcases presentId_iff.mp hp with hA | hB
    · left
      simp only [List.map_append]
      exact List.mem_append_left _ hA
    · right
      exact hB
  | updateOp id st data now =>
    exact present_of_same_keys (updateCallStatus_keys s id st data now).1
      (updateCallStatus_keys s id st data now).2 hp
  | transcriptOp id m =>
    exact present_of_same_keys (addTranscript_keys s id m).1
      (addTranscript_keys s id m).2 hp
  | audioOp id m =>
    exact present_of_same_keys (updateAudioMetrics_keys s id m).1
      (updateAudioMetrics_keys s id m).2 hp
  | transferOp id dest ext now =>
    exact present_of_same_keys (transferCallOp_keys s id dest ext now).1
      (transferCallOp_keys s id dest ext now).2 hp
  | endOp id ext now =>
    cases h : lookupA s.active id with
    | none =>
      have hst : step s (Op.endOp id ext now) = s := by
        cases ext <;> simp [step, endCallOp, h]
      rw [hst]
      exact hp
    | some c =>
      cases ext with
      | error msg =>
        have hst : step s (Op.endOp id (Except.error msg) now) = s := by
          simp [step, endCallOp, h]
        rw [hst]
        exact hp
      | ok u =>
        cases u
        have hst : step s (Op.endOp id (Except.ok ()) now)
            = (endCallOp s id (Except.ok ()) now).1 := rfl
        rw [hst, endCallOp_ok_state h now, presentId_iff]
        obtain ⟨h1, h2, h3⟩ := hs
        have hcid : c.call_id = id := h3 (id, c) (lookupA_mem h)
        have hc2 : (updateRecord { c with end_time := some now } CallStatus.ended none now).call_id = id := by
          have := @updateRecord_call_id ({ c with end_time := some now })
            CallStatus.ended none now (fun l hl => by cases hl)
          rw [this]
          exact hcid
        rcases presentId_iff.mp hp with hA | hB
        · by_cases hy : y = id
          · subst hy
            right
            simp [hc2]
          · left
            rw [eraseActive_map_fst]
            exact List.mem_filter.mpr ⟨hA, by simp [hy]⟩
        · right
          simp only [List.map_append]
          exact List.mem_append_left _ hB

theorem present_run : ∀ (ops : List Op), NoCallIdPatch ops →
    ∀ (s : ManagerState) (y : Nat), Inv s → presentId s y = true →
      presentId (run s ops) y = true := by
  intro ops
  induction ops with
  | nil =>
    intro _ s y _ hp
    exact hp
  | cons op ops ih =>
    intro h s y hs hp
    show presentId (List.foldl step (step s op) ops) y = true
    exact ih (fun o ho => h o (List.mem_cons_of_mem op ho)) (step s op) y
      (inv_step hs (h op (List.mem_cons_self op ops))) (present_step hs hp)

/-! ## C3: a call id is in at most one partition -/

/-- C3 counterexample: the claim quantifies over every sequence of mutating
operations, but running `opsBoth` — two started calls, a partial-fields
update that overwrites the first record's `call_id` field to `1`, then
ending the first call — leaves call id `1` visible in BOTH partitions: it is
an active key and the `call_id` of a historical record. -/
theorem call_id_in_both_partitions :
    activeContains (run initialState opsBoth) 1 = true ∧
    historyContains (run initialState opsBoth) 1 = true :=
  ⟨by decide, by decide⟩

/-- C3 amended: for every sequence of mutating operations in which no
`update_status` partial-fields dict overwrites `call_id`, (a) a given call
id is contained in at most one of the active partition and the historical
list at every observation point; (b) an id present in either partition
after any prefix of the run stays present to the end; and (c) the id
allocated by any `start_call` of the sequence (successful or not — the code
registers the record before dispatching) is present from that point on, so
after a successful `start_call` the id is always in exactly one
partition. -/
theorem partitions_mutually_exclusive (ops : List Op)
    (h : NoCallIdPatch ops) :
    (∀ id, ¬(activeContains (run initialState ops) id = true ∧
             historyContains (run initialState ops) id = true)) ∧
    (∀ pre suf, ops = pre ++ suf → ∀ id,
        presentId (run initialState pre) id = true →
        presentId (run initialState ops) id = true) ∧
    (∀ pre p n x now d suf, ops = pre ++ Op.startOp p n x now d :: suf →
        presentId (run initialState ops) ((run initialState pre).nextId)
          = true) := by
  have hInv : Inv (run initialState ops) :=
    inv_run ops h initialState inv_initial
  refine ⟨?_, ?_, ?_⟩
  · rintro id ⟨ha, hh⟩
    rw [activeContains_iff] at ha
    rw [historyContains_iff] at hh
    have h1A : ((run initialState ops).active.map Prod.fst
        ++ (run initialState ops).history.map CallData.call_id).Nodup :=
      hInv.1
    exact (List.nodup_append.mp h1A).2.2 ha hh
  · intro pre suf hps id hp
    subst hps
    have hpre : Inv (run initialState pre) :=
      inv_run pre (fun o ho => h o (List.mem_append_left _ ho))
        initialState inv_initial
    have hsplit : run initialState (pre ++ suf)
        = run (run initialState pre) suf := by
      show List.foldl step initialState (pre ++ suf)
          = List.foldl step (List.foldl step initialState pre) suf
      rw [List.foldl_append]
    rw [hsplit]
    exact present_run suf (fun o ho => h o (List.mem_append_right _ ho))
      _ id hpre hp
  · intro pre p n x now d suf hps
    subst hps
    have hpre : Inv (run initialState pre) :=
      inv_run pre (fun o ho => h o (List.mem_append_left _ ho))
        initialState inv_initial
    have hsplit : run initialState (pre ++ Op.startOp p n x now d :: suf)
        = run (step (run initialState pre) (Op.startOp p n x now d)) suf := by
      show List.foldl step initialState (pre ++ Op.startOp p n x now d :: suf)
          = List.foldl step (step (List.foldl step initialState pre) (Op.startOp p n x now d)) suf
      rw [List.foldl_append, List.foldl_cons]
    rw [hsplit]
    have hstep : Inv (step (run initialState pre) (Op.startOp p n x now d)) :=
      inv_step hpre rfl
    refine present_run suf ?_ _ _ hstep present_after_start
    intro o ho
    exact h o (List.mem_append_right _ (List.mem_cons_of_mem _ ho))

theorem partitions_mutually_exclusive_witness :
    ¬(activeContains (run initialState opsRegular) 0 = true ∧
      historyContains (run initialState opsRegular) 0 = true) :=
  (partitions_mutually_exclusive opsRegular (by decide)).1 0

/-! ## C9: call identifiers are immutable and unique -/

/-- C9 counterexample: the claim says the call identifier never changes
after creation for arbitrary partial-field dictionaries; but after
`start_call` creates the record with identifier `0`, an `update_status`
whose partial-fields dict contains `call_id: 7` overwrites the record's
identifier field (the record still sits under active key `0`). -/
theorem call_id_overwritten_by_update :
    (lookupA (run initialState opsStartOnly).active 0).map CallData.call_id
      = some 0 ∧
    (lookupA (run initialState opsPatchOnly).active 0).map CallData.call_id
      = some 7 :=
  ⟨by decide, by decide⟩

/-- C9 amended: for every sequence of operations in which no
`update_status` partial-fields dict overwrites `call_id`, every active
record still carries exactly the identifier it was created under (its
active-partition key), and the identifiers are pairwise distinct across the
union of the active partition and the historical list. -/
theorem call_ids_immutable_and_unique (ops : List Op)
    (h : NoCallIdPatch ops) :
    (∀ e ∈ (run initialState ops).active, e.2.call_id = e.1) ∧
    ((run initialState ops).active.map Prod.fst
      ++ (run initialState ops).history.map CallData.call_id).Nodup := by
  have hInv : Inv (run initialState ops) :=
    inv_run ops h initialState inv_initial
  exact ⟨hInv.2.2, hInv.1⟩

theorem call_ids_immutable_and_unique_witness :
    ((run initialState opsRegular).active.map Prod.fst
      ++ (run initialState opsRegular).history.map CallData.call_id).Nodup :=
  (call_ids_immutable_and_unique opsRegular (by decide)).2

end Dashboard
